import Mathlib

/-!
Shallow embedding of the hook execution engine of this repository
(src/run.rs): filename/tag filters, the batch partitioner, the
deterministic pre-partition shuffle, batch execution, the hook run
sequencer, the working-tree keeper, and the status-line column
arithmetic.  External collaborators (the regex crate, the tag
classifier, the language runner, the git diff computation and the OS
concurrency probe) are modelled as explicit parameters, so every
definition is an executable Lean function of its inputs.
-/

set_option maxRecDepth 10000

/-- A compiled regular expression from the external regex crate, modelled by
its matching behaviour on a path string: `isMatch s = none` models the
crate's fallible evaluation returning an error, `some b` a successful
evaluation with result `b`. -/
structure Regex where
  isMatch : String → Option Bool

/-- A hook descriptor (src/hook.rs, as consumed by src/run.rs).  The Rust
field names are kept except `alias`, a Lean keyword, rendered `aliasId`. -/
structure Hook where
  id : String
  aliasId : String
  name : String
  entry : String
  args : List String
  files : Option String
  exclude : Option String
  types : List String
  types_or : List String
  exclude_types : List String
  always_run : Bool
  fail_fast : Bool
  pass_filenames : Bool

/-- src/run.rs `FilenameFilter`: optional include and exclude patterns.
The Rust fields `include` and `exclude` are rendered `includeRe` and
`excludeRe` (`include` is a Lean keyword). -/
structure FilenameFilter where
  includeRe : Option Regex
  excludeRe : Option Regex

/-- src/run.rs `FilenameFilter::filter`.  The source early-returns `false`
when the include pattern is present and does not match (evaluation errors
are collapsed to "no match" by `unwrap_or(false)`), then returns `false`
when the exclude pattern is present and matches, else `true`. -/
def FilenameFilter.filter (f : FilenameFilter) (filename : String) : Bool :=
  let incOk := match f.includeRe with
    | some re => (re.isMatch filename).getD false
    | none => true
  let excHit := match f.excludeRe with
    | some re => (re.isMatch filename).getD false
    | none => false
  if !incOk then false
  else if excHit then false
  else true

/-- src/run.rs `FilenameFilter::new`: compiles the optional include
pattern, then the optional exclude pattern, propagating the first
compilation error (`include.map(Regex::new).transpose()?`).  The external
compiler `Regex::new` is the parameter `compile`. -/
def FilenameFilter.new (compile : String → Except String Regex)
    (inc exc : Option String) : Except String FilenameFilter := do
  let includeRe ← match inc with
    | some s => (compile s).map some
    | none => Except.ok none
  let excludeRe ← match exc with
    | some s => (compile s).map some
    | none => Except.ok none
  Except.ok ⟨includeRe, excludeRe⟩

/-- src/run.rs `FilenameFilter::from_hook`. -/
def FilenameFilter.fromHook (compile : String → Except String Regex)
    (hook : Hook) : Except String FilenameFilter :=
  FilenameFilter.new compile hook.files hook.exclude

/-- src/run.rs `FileTagFilter`: required-all, required-any and excluded
tag lists. -/
structure FileTagFilter where
  all : List String
  any : List String
  exclude : List String

/-- src/run.rs `FileTagFilter::filter`. -/
def FileTagFilter.filter (f : FileTagFilter) (fileTypes : List String) : Bool :=
  if !f.all.isEmpty && !(f.all.all fun t => fileTypes.contains t) then false
  else if !f.any.isEmpty && !(f.any.any fun t => fileTypes.contains t) then false
  else if f.exclude.any fun t => fileTypes.contains t then false
  else true

/-- src/run.rs `FileTagFilter::from_hook`. -/
def FileTagFilter.fromHook (hook : Hook) : FileTagFilter :=
  ⟨hook.types, hook.types_or, hook.exclude_types⟩

/-- The unix branch of the `max_cli_length` constant in src/run.rs
`partitions` (`1 << 12`); the windows branch is not modelled. -/
def maxCliLength : Nat := 1 <<< 12

/-- The fixed command length computed in src/run.rs `partitions`:
`hook.entry.len() + hook.args.iter().map(String::len).sum() + hook.args.len()`.
Rust byte lengths are modelled by character counts (exact on ASCII). -/
def commandLength (hook : Hook) : Nat :=
  hook.entry.length + (hook.args.map String.length).sum + hook.args.length

/-- Rust `usize::div_ceil` for a positive divisor. -/
def divCeil (a b : Nat) : Nat := (a + b - 1) / b

/-- The `for` loop of src/run.rs `partitions`, carrying the current batch
and its accumulated length.  On overflow of the length ceiling or of the
per-batch count the current batch is pushed (even when empty, exactly as
the source pushes `current` unconditionally) and a fresh batch is started
from the offending filename. -/
def partitionsGo (maxCli maxPerBatch cmdLen : Nat) :
    List String → List String → Nat → List (List String)
  | [], cur, _ => if cur.isEmpty then [] else [cur]
  | f :: rest, cur, curLen =>
    let len := f.length + 1
    if curLen + len > maxCli ∨ cur.length ≥ maxPerBatch then
      cur :: partitionsGo maxCli maxPerBatch cmdLen rest [f] (cmdLen + 1 + len)
    else
      partitionsGo maxCli maxPerBatch cmdLen rest (cur ++ [f]) (curLen + len)

/-- src/run.rs `partitions`: an empty filename list yields one empty
batch; otherwise the filenames are greedily packed under the length
ceiling and the `max(4, file_count.div_ceil(concurrency))` count bound. -/
def partitions (hook : Hook) (filenames : List String) (concurrency : Nat) :
    List (List String) :=
  if filenames.isEmpty then [[]]
  else
    let maxPerBatch := max 4 (divCeil filenames.length concurrency)
    partitionsGo maxCliLength maxPerBatch (commandLength hook)
      filenames [] (commandLength hook + 1)

/-- The byte length the claim attributes to a batch: the command length
plus each filename's length plus one separator per filename. -/
def batchLen (hook : Hook) (batch : List String) : Nat :=
  commandLength hook + (batch.map fun f => f.length + 1).sum

/-- Total filename length of a batch, one separator per filename (the
quantity the partitioner's running `current_length` accumulates on top of
`command_length + 1`). -/
def sumLens (batch : List String) : Nat :=
  (batch.map fun f => f.length + 1).sum

/-- A hook whose entry alone is 4000 bytes long; together with a 100-byte
filename it overflows the unix 4096-byte ceiling, exercising the branch
of the partition loop that flushes an empty current batch. -/
def cexEntry : String := String.mk (List.replicate 4000 'e')

def cexHook : Hook :=
  { id := "cex", aliasId := "", name := "cex",
    entry := cexEntry, args := [],
    files := none, exclude := none,
    types := [], types_or := [], exclude_types := [],
    always_run := false, fail_fast := false, pass_filenames := true }

def cexFile : String := String.mk (List.replicate 100 'a')

def smallHook : Hook :=
  { id := "w", aliasId := "", name := "w",
    entry := "e", args := [],
    files := none, exclude := none,
    types := [], types_or := [], exclude_types := [],
    always_run := false, fail_fast := false, pass_filenames := true }

/-- src/run.rs `SKIPPED`. -/
def SKIPPED : String := "Skipped"

/-- src/run.rs `NO_FILES`. -/
def NO_FILES : String := "(no files to check)"

/-- The dot count computed by src/run.rs `status_line`:
`cols - start.width_cjk() - end_msg.len() - postfix.len() - 1`.  The
external `unicode_width` crate's `width_cjk` is the parameter `width`;
the Rust parameter spelled like "post"+"fix" is rendered `extra`. -/
def statusLineDots (width : String → Nat) (start : String) (cols : Nat)
    (endMsg extra : String) : Nat :=
  cols - width start - endMsg.length - extra.length - 1

/-- src/run.rs `calculate_columns`:
`max(80, name_len + 3 + NO_FILES.len() + 1 + SKIPPED.len())` where
`name_len` is the maximum `width_cjk` of the hook names (0 when the list
is empty). -/
def calculateColumns (width : String → Nat) (hooks : List Hook) : Nat :=
  max 80 ((hooks.map fun h => width h.name).foldr max 0 + 3 + NO_FILES.length + 1 +
    SKIPPED.length)

/-- A regex that matches everything, one that matches nothing, one whose
evaluation always errors, and a tiny compiler rejecting the pattern
`"["`; concrete stand-ins for the external regex crate in witnesses. -/
def matchAllRegex : Regex := ⟨fun _ => some true⟩

def matchNoneRegex : Regex := ⟨fun _ => some false⟩

def errorRegex : Regex := ⟨fun _ => none⟩

def cexCompile : String → Except String Regex :=
  fun s => if s = "[" then Except.error "bad pattern" else Except.ok ⟨fun p => some (p == s)⟩

/-- The fixed seed of src/run.rs `shuffle` (`const SEED: u64 = 1_542_676_187`). -/
def SEED : Nat := 1542676187

/-- Model of the external `rand` crate's `StdRng` stream: a deterministic
pure generator advanced by a 64-bit linear congruence.  The crate's exact
byte stream is irrelevant to every claim below; what the embedding
preserves is that the stream is a function of the seed alone (the source
seeds with `StdRng::seed_from_u64(SEED)`, never the clock). -/
def rngNext (s : Nat) : Nat × Nat :=
  let s2 := (s * 6364136223846793005 + 1442695040888963407) % (2 ^ 64)
  (s2, s2 / 2 ^ 33)

/-- Model of the crate's `gen_range(0..=i)` used by Fisher-Yates
shuffling, with `n = i + 1`. -/
def genIndex (s : Nat) (n : Nat) : Nat × Nat :=
  let (s2, v) := rngNext s
  (s2, v % n)

/-- Swap two positions of a list (the slice `swap` of the crate's
shuffle). -/
def listSwap (xs : List α) (i j : Nat) : List α :=
  match xs.get? i, xs.get? j with
  | some a, some b => (xs.set i b).set j a
  | _, _ => xs

/-- Fisher-Yates loop of the crate's `SliceRandom::shuffle`: for `i` from
`len - 1` down to `1`, swap position `i` with a generated position in
`0..=i`. -/
def shuffleGo (s : Nat) (xs : List α) : Nat → List α
  | 0 => xs
  | i + 1 =>
    let (s2, j) := genIndex s (i + 2)
    shuffleGo s2 (listSwap xs (i + 1) j) i

/-- src/run.rs `shuffle`: shuffles the filenames with an rng seeded from
the fixed constant `SEED`. -/
def shuffle (xs : List α) : List α :=
  shuffleGo SEED xs (xs.length - 1)

/-- A working-tree diff snapshot: the opaque byte buffer returned by
`get_diff` (src/git.rs, outside src/), compared only for equality. -/
abbrev Diff := List Nat

/-- The external collaborators one `run_hook` invocation consults, as
explicit data: the regex compiler (`Regex::new`), the tag classifier
(`tags_from_path`), the language runner (`hook.language.run`, returning
exit status and combined output as a function of the filename batch), and
the diff snapshot `get_diff` reports after the hook ran. -/
structure HookEnv where
  compile : String → Except String Regex
  tags : String → Except String (List String)
  runResult : List String → Int × List Nat
  newDiff : Diff

/-- The filename selection of src/run.rs `run_hook`: the filename filter
built from the hook (construction errors propagate), then the tag filter,
with a classification error for a path rejecting that path. -/
def filteredFilenames (env : HookEnv) (hook : Hook) (filenames : List String) :
    Except String (List String) :=
  match FilenameFilter.fromHook env.compile hook with
  | Except.error e => Except.error e
  | Except.ok flt =>
    let fns := filenames.filter flt.filter
    let tagFilter := FileTagFilter.fromHook hook
    Except.ok (fns.filter fun fn =>
      match env.tags fn with
      | Except.ok tags => tagFilter.filter tags
      | Except.error _ => false)

/-- src/run.rs `run_hook`: skip-listed hooks report success untouched;
an empty filtered list without `always_run` reports success untouched;
otherwise the hook runs on the shuffled filtered list (or on no
filenames), a fresh diff is taken, and the hook succeeds iff its exit
status is zero and the diff is unchanged.  The fresh diff is returned as
the new current snapshot. -/
def runHook (hook : Hook) (env : HookEnv) (filenames : List String)
    (skips : List String) (diff : Diff) : Except String (Bool × Diff) :=
  if skips.contains hook.id || skips.contains hook.aliasId then
    Except.ok (true, diff)
  else
    match filteredFilenames env hook filenames with
    | Except.error e => Except.error e
    | Except.ok fns =>
      if fns.isEmpty && !hook.always_run then Except.ok (true, diff)
      else
        let statusOutput :=
          if hook.pass_filenames then env.runResult (shuffle fns)
          else env.runResult []
        let newDiff := env.newDiff
        let fileModified := diff ≠ newDiff
        Except.ok (statusOutput.1 == 0 && !fileModified, newDiff)

/-- The exit status of the language runner invocation `run_hook` makes
for a hook whose filtered list is `fns`. -/
def hookRunStatus (hook : Hook) (env : HookEnv) (fns : List String) : Int :=
  (if hook.pass_filenames then env.runResult (shuffle fns) else env.runResult []).1

/-- Modelled from the spec: the `ExitStatus` CLI type returned by
`run_hooks` is defined in src/cli.rs, which is not under src/; the spec
says the run's overall result is success iff every executed hook
succeeded, otherwise failure. -/
inductive ExitStatus
  | Success
  | Failure
deriving DecidableEq

/-- The `for hook in hooks` loop of src/run.rs `run_hooks`: per-hook
results come from the parameter `p` (one `run_hook` invocation, `?` on
its error), overall success is ANDed, and the loop breaks when success
is false and the global or per-hook fail-fast flag is set.  The returned
list of hooks actually executed and the break flag are specification
instrumentation; the source returns only the folded success and diff. -/
def runHooksLoop (p : Hook → Diff → Except String (Bool × Diff)) (ff : Bool) :
    List Hook → Bool → Diff → Except String (Bool × Diff × List Hook × Bool)
  | [], success, _diff => Except.ok (success, _diff, [], false)
  | hook :: rest, success, diff =>
    match p hook diff with
    | Except.error e => Except.error e
    | Except.ok (hookSuccess, newDiff) =>
      if !(success && hookSuccess) && (ff || hook.fail_fast) then
        Except.ok (success && hookSuccess, newDiff, [hook], true)
      else
        match runHooksLoop p ff rest (success && hookSuccess) newDiff with
        | Except.error e => Except.error e
        | Except.ok (s, d, ex, b) => Except.ok (s, d, hook :: ex, b)

/-- src/run.rs `run_hooks`: runs the loop from overall success `true` and
the initial diff snapshot, and maps the folded success to the exit
status. -/
def runHooks (p : Hook → Diff → Except String (Bool × Diff)) (ff : Bool)
    (hooks : List Hook) (diff : Diff) : Except String (ExitStatus × List Hook) :=
  match runHooksLoop p ff hooks true diff with
  | Except.error e => Except.error e
  | Except.ok (success, _, ex, _) =>
    Except.ok (if success then ExitStatus.Success else ExitStatus.Failure, ex)

def failFastHook : Hook :=
  { id := "ff", aliasId := "", name := "ff",
    entry := "e", args := [],
    files := none, exclude := none,
    types := [], types_or := [], exclude_types := [],
    always_run := true, fail_fast := true, pass_filenames := false }

def alwaysRunHook : Hook :=
  { id := "ar", aliasId := "", name := "ar",
    entry := "e", args := [],
    files := none, exclude := none,
    types := [], types_or := [], exclude_types := [],
    always_run := true, fail_fast := false, pass_filenames := false }

/-- A per-hook runner that always reports failure without touching the
diff: enough to exercise the fail-fast break. -/
def alwaysFailRunner : Hook → Diff → Except String (Bool × Diff) :=
  fun _ d => Except.ok (false, d)

def traceTags : String → Except String (List String) := fun _ => Except.ok ["text"]

def okCompile : String → Except String Regex :=
  fun _ => Except.ok matchAllRegex

def witnessEnv : HookEnv :=
  { compile := okCompile, tags := traceTags,
    runResult := fun _ => (0, []), newDiff := [1] }

/-- src/run.rs `run_by_batch`: the batches from `partitions` are spawned
as concurrent tasks in partition order and the results are collected with
`JoinSet::join_next`, which yields tasks in the order they complete.  The
concurrency level (`target_concurrency`, which probes the OS and the
environment) is a parameter, and the nondeterministic completion order
the scheduler may produce is the explicit `schedule`: a permutation of
the batch indices, position `k` naming the batch that completed `k`-th.
The semaphore only bounds how many tasks run at once; it does not
restrict which completion orders are possible once two or more permits
exist. -/
def runByBatch (hook : Hook) (filenames : List String) (concurrency : Nat)
    (run : List String → α) (schedule : List Nat) : List α :=
  schedule.map fun i => run ((partitions hook filenames concurrency).getD i [])

/-- Modelled from the spec: "overall hook exit status is non-zero if any
batch's exit status is non-zero".  The code combining batch statuses into
one hook status lives in the per-language runners, which are not under
src/ (the only language implementation present, node.rs, stubs its run
method), so the combination is taken from the spec's words. -/
def combineStatuses (statuses : List Int) : Int :=
  if statuses.any fun s => s ≠ 0 then 1 else 0

/-- A batch runner for witnesses: the singleton batch fails with exit
status 3, every other batch succeeds. -/
def cexRun : List String → Int × List Nat :=
  fun b => (if b.length = 1 then 3 else 0, [])

/-- A git command the restoration machinery can issue. -/
inductive GitCmd
  | intentToAdd (paths : List String)
  | applyReverse (patch : String)
deriving DecidableEq

/-- src/run.rs `IntentToAddKeeper`: the snapshot of intent-to-add paths. -/
structure IntentToAddKeeper where
  paths : List String

/-- src/run.rs `IntentToAddKeeper::clean`, which in this source returns an
empty path list. -/
def IntentToAddKeeper.clean : IntentToAddKeeper := ⟨[]⟩

/-- src/run.rs `IntentToAddKeeper::restore`: issues
`git add --intent-to-add -- <paths>` only when the path list is
non-empty. -/
def IntentToAddKeeper.restoreCmds (k : IntentToAddKeeper) : List GitCmd :=
  if k.paths.isEmpty then [] else [GitCmd.intentToAdd k.paths]

/-- src/run.rs `WorkingTreeKeeper`: the retained patch artifact. -/
structure WorkingTreeKeeper where
  patch : Option String

/-- src/run.rs `WorkingTreeKeeper::clean`, which in this source retains
the temp path "/tmp/patch". -/
def WorkingTreeKeeper.clean : WorkingTreeKeeper := ⟨some "/tmp/patch"⟩

/-- src/run.rs `WorkingTreeKeeper::restore`: issues
`git apply --whitespace=nowarn --reverse <patch>` whenever the patch is
retained; the patch option is never cleared by the source. -/
def WorkingTreeKeeper.restoreCmds (k : WorkingTreeKeeper) : List GitCmd :=
  match k.patch with
  | some p => [GitCmd.applyReverse p]
  | none => []

/-- src/run.rs `WorkTreeKeeper`: both keepers plus the atomic
"already restored" flag. -/
structure WorkTreeKeeper where
  intent_to_add : IntentToAddKeeper
  working_tree : WorkingTreeKeeper
  restored : Bool

/-- src/run.rs `WorkTreeKeeper::restore`: the compare-exchange on the
`restored` flag makes every call after the first return without issuing
commands; the first call restores intent-to-add paths and then the
working tree. -/
def WorkTreeKeeper.restore (k : WorkTreeKeeper) : WorkTreeKeeper × List GitCmd :=
  if k.restored then (k, [])
  else ({ k with restored := true },
        k.intent_to_add.restoreCmds ++ k.working_tree.restoreCmds)

/-- The Rust drop glue of an owned `WorkTreeKeeper`: the struct has no
`Drop` impl of its own, but src/run.rs implements `Drop` for both fields
(`impl Drop for IntentToAddKeeper`, `impl Drop for WorkingTreeKeeper`),
each calling its own `restore` unconditionally — the atomic flag does not
guard these field destructors. -/
def WorkTreeKeeper.dropCmds (k : WorkTreeKeeper) : List GitCmd :=
  k.intent_to_add.restoreCmds ++ k.working_tree.restoreCmds

/-- The keeper src/run.rs `WorkTreeKeeper::clean` builds and stores into
the global `RESTORE_WORKTREE` slot. -/
def WorkTreeKeeper.clean : WorkTreeKeeper :=
  ⟨IntentToAddKeeper.clean, WorkingTreeKeeper.clean, false⟩

/-- The trigger paths of the restoration: dropping the scoped
`RestoreGuard` (normal completion or early return) and the interrupt
cleanup callback registered with `add_cleanup`. -/
inductive TriggerEvent
  | guardDrop
  | cleanupCallback
deriving DecidableEq

/-- One trigger firing against the global `RESTORE_WORKTREE` slot.  The
cleanup callback (src/run.rs `add_cleanup(|| ...)`) restores the keeper
in place through a mutable borrow; `RestoreGuard::drop` takes the keeper
out of the slot, calls `restore`, and then drops the owned keeper, which
runs the field destructors. -/
def triggerStep : Option WorkTreeKeeper → TriggerEvent →
    Option WorkTreeKeeper × List GitCmd
  | none, _ => (none, [])
  | some k, TriggerEvent.cleanupCallback =>
    ((k.restore).1, (k.restore).2)
  | some k, TriggerEvent.guardDrop =>
    (none, (k.restore).2 ++ (k.restore).1.dropCmds)

/-- Folds a sequence of trigger events over the global slot, collecting
every git command issued. -/
def runTriggers : Option WorkTreeKeeper → List TriggerEvent → List GitCmd
  | _, [] => []
  | st, e :: es =>
    (triggerStep st e).2 ++ runTriggers (triggerStep st e).1 es

theorem sumLens_nil : sumLens [] = 0 := rfl

theorem sumLens_append (a b : List String) :
    sumLens (a ++ b) = sumLens a + sumLens b := by
  simp [sumLens]

theorem batchLen_eq (hook : Hook) (b : List String) :
    batchLen hook b = commandLength hook + sumLens b := rfl

/-- Invariant-carrying specification of the partition loop: when every
remaining filename individually fits under the ceiling and the current
batch satisfies the running-length invariant, the emitted batches
concatenate to `cur ++ rest`, each stays within the ceiling and the
per-batch count bound, and none is empty. -/
theorem partitionsGo_spec (maxCli mpb cmdLen : Nat) (hmpb : 1 ≤ mpb)
    (rest : List String) :
    ∀ (cur : List String) (curLen : Nat),
      curLen = cmdLen + 1 + sumLens cur →
      curLen ≤ maxCli →
      cur.length ≤ mpb →
      (∀ f ∈ rest, cmdLen + 1 + (f.length + 1) ≤ maxCli) →
      (partitionsGo maxCli mpb cmdLen rest cur curLen).flatten = cur ++ rest ∧
      ∀ b ∈ partitionsGo maxCli mpb cmdLen rest cur curLen,
        cmdLen + sumLens b ≤ maxCli ∧ b.length ≤ mpb ∧ b ≠ [] := by
  induction rest with
  | nil =>
    intro cur curLen hlen hle hcount _
    rw [partitionsGo]
    by_cases hc : cur.isEmpty
    · simp_all [List.isEmpty_iff]
    · rw [if_neg hc]
      refine ⟨by simp, ?_⟩
      intro b hb
      rw [List.mem_singleton] at hb
      subst hb
      refine ⟨by omega, hcount, by simpa [List.isEmpty_iff] using hc⟩
  | cons f rest ih =>
    intro cur curLen hlen hle hcount hfit
    have hfitf : cmdLen + 1 + (f.length + 1) ≤ maxCli := hfit f (by simp)
    have hfit' : ∀ g ∈ rest, cmdLen + 1 + (g.length + 1) ≤ maxCli := by
      intro g hg; exact hfit g (by simp [hg])
    rw [partitionsGo]
    by_cases htrig : curLen + (f.length + 1) > maxCli ∨ cur.length ≥ mpb
    · -- the current batch is flushed; it cannot be empty here
      have hcur : cur ≠ [] := by
        rintro rfl
        rcases htrig with h | h
        · simp [sumLens_nil] at hlen
          omega
        · simp at h
          omega
      rw [if_pos htrig]
      obtain ⟨hflat, hbatch⟩ :=
        ih [f] (cmdLen + 1 + (f.length + 1))
          (by simp [sumLens]) hfitf (by simpa using hmpb) hfit'
      refine ⟨by simp [hflat], ?_⟩
      intro b hb
      rcases List.mem_cons.mp hb with rfl | hb
      · exact ⟨by omega, hcount, hcur⟩
      · exact hbatch b hb
    · rw [if_neg htrig]
      push_neg at htrig
      obtain ⟨hlt, hcnt⟩ := htrig
      obtain ⟨hflat, hbatch⟩ :=
        ih (cur ++ [f]) (curLen + (f.length + 1))
          (by rw [hlen, sumLens_append]; simp [sumLens]; omega)
          (by omega) (by simp; omega) hfit'
      exact ⟨by simp [hflat], hbatch⟩

/-- The full guarantee of the partitioner on a non-empty input, provided
each filename individually fits under the ceiling together with the
command: exact concatenation, per-batch length bound, per-batch count
bound, and no empty batch. -/
theorem partitions_spec (hook : Hook) (files : List String) (c : Nat)
    (hne : files ≠ [])
    (hfit : ∀ f ∈ files, commandLength hook + 1 + (f.length + 1) ≤ maxCliLength) :
    (partitions hook files c).flatten = files ∧
    ∀ b ∈ partitions hook files c,
      batchLen hook b ≤ maxCliLength ∧
      b.length ≤ max 4 (divCeil files.length c) ∧ b ≠ [] := by
  obtain ⟨f, rest, rfl⟩ := List.exists_cons_of_ne_nil hne
  have hle : commandLength hook + 1 ≤ maxCliLength := by
    have := hfit f (by simp)
    omega
  have hspec := partitionsGo_spec maxCliLength
      (max 4 (divCeil (f :: rest).length c)) (commandLength hook)
      (by omega) (f :: rest) [] (commandLength hook + 1)
      (by simp [sumLens_nil]) hle (by simp) hfit
  rw [partitions, if_neg (by simp)]
  refine ⟨hspec.1, fun b hb => ?_⟩
  obtain ⟨h1, h2, h3⟩ := hspec.2 b hb
  exact ⟨by rw [batchLen_eq]; omega, h2, h3⟩

theorem cexEntry_length : cexEntry.length = 4000 := by
  rw [cexEntry, String.length_mk, List.length_replicate]

theorem cexFile_length : cexFile.length = 100 := by
  rw [cexFile, String.length_mk, List.length_replicate]

theorem cexHook_entry : cexHook.entry = cexEntry := rfl

theorem cexHook_args : cexHook.args = [] := rfl

theorem cexHook_commandLength : commandLength cexHook = 4000 := by
  rw [commandLength, cexHook_entry, cexHook_args, cexEntry_length]
  simp

/-- On the oversized input the partitioner emits an empty first batch and
a second batch that blows the ceiling. -/
theorem cex_partitions : partitions cexHook [cexFile] 1 = [[], [cexFile]] := by
  simp [partitions, partitionsGo, cexHook_commandLength, cexFile_length, divCeil,
        maxCliLength]

/-- Claim C1 is false as stated: for the non-empty filename list
`[cexFile]` and concurrency 1, the partitioner emits a batch whose
accumulated byte length (command length plus filename length plus one
separator) exceeds the platform length ceiling, because a filename that
does not fit together with the command is still placed into a batch. -/
theorem C1_counterexample :
    ∃ b ∈ partitions cexHook [cexFile] 1, maxCliLength < batchLen cexHook b := by
  refine ⟨[cexFile], ?_, ?_⟩
  · rw [cex_partitions]
    simp
  · rw [batchLen, cexHook_commandLength]
    simp [cexFile_length, maxCliLength]

/-- Claim C1 (amended): for every non-empty filename list, hook and
concurrency level at least 1, IF each filename individually fits under
the ceiling together with the command length, then the batches
concatenate in order to the input list exactly, no batch's accumulated
byte length exceeds the platform ceiling, and no batch holds more than
`max 4 (ceil (file_count / concurrency))` entries. -/
theorem C1_partitioner_correct (hook : Hook) (files : List String) (c : Nat)
    (hne : files ≠ []) (hc : 1 ≤ c)
    (hfit : ∀ f ∈ files, commandLength hook + 1 + (f.length + 1) ≤ maxCliLength) :
    (partitions hook files c).flatten = files ∧
    (∀ b ∈ partitions hook files c, batchLen hook b ≤ maxCliLength) ∧
    ∀ b ∈ partitions hook files c, b.length ≤ max 4 (divCeil files.length c) := by
  obtain ⟨h1, h2⟩ := partitions_spec hook files c hne hfit
  exact ⟨h1, fun b hb => (h2 b hb).1, fun b hb => (h2 b hb).2.1⟩

theorem C1_partitioner_correct_witness :
    (["a", "b"] : List String) ≠ [] ∧ 1 ≤ 1 ∧
    (∀ f ∈ (["a", "b"] : List String),
      commandLength smallHook + 1 + (f.length + 1) ≤ maxCliLength) ∧
    ((partitions smallHook ["a", "b"] 1).flatten = ["a", "b"] ∧
     (∀ b ∈ partitions smallHook ["a", "b"] 1,
        batchLen smallHook b ≤ maxCliLength) ∧
     ∀ b ∈ partitions smallHook ["a", "b"] 1,
        b.length ≤ max 4 (divCeil (["a", "b"] : List String).length 1)) :=
  ⟨by decide, by decide, by decide,
    C1_partitioner_correct smallHook ["a", "b"] 1 (by decide) (by decide)
      (by decide)⟩

/-- Claim C6 is false as stated: on the non-empty filename list
`[cexFile]` the partitioner emits an empty batch (its first one), because
the flush branch pushes the current batch even when it is empty. -/
theorem C6_counterexample :
    [] ∈ partitions cexHook [cexFile] 1 ∧ ([cexFile] : List String) ≠ [] := by
  rw [cex_partitions]
  exact ⟨by simp, by simp⟩

/-- Claim C6 (amended): an empty filtered list yields exactly one batch,
which is empty; a non-empty filtered list yields only non-empty batches
PROVIDED each filename individually fits under the length ceiling
together with the command length. -/
theorem C6_partition_emptiness (hook : Hook) (c : Nat) (hc : 1 ≤ c) :
    partitions hook [] c = [[]] ∧
    ∀ files, files ≠ [] →
      (∀ f ∈ files, commandLength hook + 1 + (f.length + 1) ≤ maxCliLength) →
      ∀ b ∈ partitions hook files c, b ≠ [] := by
  refine ⟨by simp [partitions], fun files hne hfit b hb => ?_⟩
  exact ((partitions_spec hook files c hne hfit).2 b hb).2.2

theorem getD_false_eq_true (o : Option Bool) : o.getD false = true ↔ o = some true := by
  cases o <;> simp

theorem le_foldr_max (l : List Nat) (a : Nat) (h : a ∈ l) : a ≤ l.foldr max 0 := by
  induction l with
  | nil => simp at h
  | cons x xs ih =>
    rcases List.mem_cons.mp h with rfl | h'
    · exact le_max_left _ _
    · exact le_trans (ih h') (le_max_right _ _)

/-- Claim C10: with the column width from `calculate_columns`, every
status-line padding subtraction performed for a hook of the list — the
dot count with end message "Skipped" and an empty or "(no files to
check)" trailer, and the progress-line subtraction
`columns - name_width - 6 - 1` — never underflows, and the truncated
natural subtraction is exact. -/
theorem C10_no_underflow (width : String → Nat) (hooks : List Hook) (h : Hook)
    (hmem : h ∈ hooks) :
    width h.name + SKIPPED.length + ("" : String).length + 1 ≤
      calculateColumns width hooks ∧
    width h.name + SKIPPED.length + NO_FILES.length + 1 ≤
      calculateColumns width hooks ∧
    width h.name + 6 + 1 ≤ calculateColumns width hooks ∧
    statusLineDots width h.name (calculateColumns width hooks) SKIPPED NO_FILES +
      (width h.name + SKIPPED.length + NO_FILES.length + 1) =
      calculateColumns width hooks := by
  have hw : width h.name ≤ (hooks.map fun hk => width hk.name).foldr max 0 :=
    le_foldr_max _ _ (List.mem_map_of_mem _ hmem)
  have hno : NO_FILES.length = 19 := rfl
  have hsk : SKIPPED.length = 7 := rfl
  have hcols : (hooks.map fun hk => width hk.name).foldr max 0 + 3 + NO_FILES.length +
      1 + SKIPPED.length ≤ calculateColumns width hooks := le_max_right _ _
  rw [statusLineDots]
  rw [hno, hsk] at hcols ⊢
  have hz : ("" : String).length = 0 := rfl
  rw [hz]
  omega

theorem C10_no_underflow_witness :
    smallHook ∈ [smallHook] ∧
    (String.length smallHook.name + SKIPPED.length + ("" : String).length + 1 ≤
        calculateColumns String.length [smallHook] ∧
      String.length smallHook.name + SKIPPED.length + NO_FILES.length + 1 ≤
        calculateColumns String.length [smallHook] ∧
      String.length smallHook.name + 6 + 1 ≤ calculateColumns String.length [smallHook] ∧
      statusLineDots String.length smallHook.name
          (calculateColumns String.length [smallHook]) SKIPPED NO_FILES +
        (String.length smallHook.name + SKIPPED.length + NO_FILES.length + 1) =
        calculateColumns String.length [smallHook]) :=
  ⟨List.mem_singleton.mpr rfl,
   C10_no_underflow String.length [smallHook] smallHook (List.mem_singleton.mpr rfl)⟩

/-- Claim C8: the filter accepts a path iff (the include pattern is
absent OR the path matches it) AND (the exclude pattern is absent OR the
path does not match it), where "matches" is the regex engine reporting a
successful positive match; and construction from a pattern the engine
rejects fails with that configuration error instead of producing a
per-path error. -/
theorem C8_filter_composition :
    (∀ (f : FilenameFilter) (path : String),
      f.filter path = true ↔
        (∀ re, f.includeRe = some re → re.isMatch path = some true) ∧
        (∀ re, f.excludeRe = some re → re.isMatch path ≠ some true)) ∧
    ∀ (compile : String → Except String Regex) (inc exc : Option String),
      (∃ s e, (inc = some s ∨ exc = some s) ∧ compile s = Except.error e) →
      ∃ err, FilenameFilter.new compile inc exc = Except.error err := by
  constructor
  · rintro ⟨incRe, excRe⟩ path
    cases incRe with
    | none =>
      cases excRe with
      | none => simp [FilenameFilter.filter]
      | some re =>
        cases hb : re.isMatch path with
        | none => simp [FilenameFilter.filter, hb]
        | some b => cases b <;> simp [FilenameFilter.filter, hb]
    | some ri =>
      cases excRe with
      | none =>
        cases hb : ri.isMatch path with
        | none => simp [FilenameFilter.filter, hb]
        | some b => cases b <;> simp [FilenameFilter.filter, hb]
      | some re =>
        cases hb : ri.isMatch path with
        | none => simp [FilenameFilter.filter, hb]
        | some b =>
          cases hq : re.isMatch path with
          | none => cases b <;> simp [FilenameFilter.filter, hb, hq]
          | some b' => cases b <;> cases b' <;> simp [FilenameFilter.filter, hb, hq]
  · rintro compile inc exc ⟨s, e, hs, herr⟩
    rcases hs with rfl | rfl
    · exact ⟨e, by simp only [FilenameFilter.new, herr]; rfl⟩
    · cases hinc : inc with
      | none => exact ⟨e, by simp only [FilenameFilter.new, herr]; rfl⟩
      | some s' =>
        cases hc : compile s' with
        | error e' => exact ⟨e', by simp only [FilenameFilter.new, hc]; rfl⟩
        | ok re => exact ⟨e, by simp only [FilenameFilter.new, hc, herr]; rfl⟩

theorem C8_filter_composition_witness :
    ((FilenameFilter.mk (some matchAllRegex) none).filter "a" = true ↔
      (∀ re, (FilenameFilter.mk (some matchAllRegex) none).includeRe = some re →
        re.isMatch "a" = some true) ∧
      (∀ re, (FilenameFilter.mk (some matchAllRegex) none).excludeRe = some re →
        re.isMatch "a" ≠ some true)) ∧
    ((∃ s e, ((some "[" : Option String) = some s ∨ (none : Option String) = some s) ∧
        cexCompile s = Except.error e) →
      ∃ err, FilenameFilter.new cexCompile (some "[") none = Except.error err) :=
  ⟨C8_filter_composition.1 (FilenameFilter.mk (some matchAllRegex) none) "a",
   C8_filter_composition.2 cexCompile (some "[") none⟩

/-- Claim C9: the per-path decision is total; an include pattern whose
evaluation errors rejects the path (treated as not matching), and an
exclude pattern whose evaluation errors does not exclude the path, whose
fate is then decided by the include check alone. -/
theorem C9_filter_eval_error_handling (incRe excRe : Option Regex) (path : String) :
    (∀ re, incRe = some re → re.isMatch path = none →
      (FilenameFilter.mk incRe excRe).filter path = false) ∧
    ∀ re, excRe = some re → re.isMatch path = none →
      (FilenameFilter.mk incRe excRe).filter path =
        (match incRe with
         | some ri => (ri.isMatch path).getD false
         | none => true) := by
  constructor
  · rintro re rfl herr
    simp [FilenameFilter.filter, herr]
  · rintro re rfl herr
    cases incRe with
    | none => simp [FilenameFilter.filter, herr]
    | some ri =>
      cases hb : ri.isMatch path with
      | none => simp [FilenameFilter.filter, herr, hb]
      | some b => cases b <;> simp [FilenameFilter.filter, herr, hb]

theorem C9_filter_eval_error_handling_witness :
    ((some errorRegex : Option Regex) = some errorRegex →
      errorRegex.isMatch "a" = none →
      (FilenameFilter.mk (some errorRegex) (some errorRegex)).filter "a" = false) ∧
    ((some errorRegex : Option Regex) = some errorRegex →
      errorRegex.isMatch "a" = none →
      (FilenameFilter.mk (some errorRegex) (some errorRegex)).filter "a" =
        (match (some errorRegex : Option Regex) with
         | some ri => (ri.isMatch "a").getD false
         | none => true)) :=
  ⟨fun _ _ => (C9_filter_eval_error_handling (some errorRegex) (some errorRegex) "a").1
      errorRegex rfl rfl,
   fun _ _ => (C9_filter_eval_error_handling (some errorRegex) (some errorRegex) "a").2
      errorRegex rfl rfl⟩

/-- Claim C5: the pre-partition shuffle and the batch partitioner are
deterministic functions of their inputs: on identical inputs (identical
filename lists, hook metadata, and concurrency) two runs produce the
identical permutation and the identical batch sequence, and the shuffle's
randomness comes from the fixed seed `SEED` alone, never from a clock.
In the embedding both are pure functions, which is exactly what the
source guarantees by seeding with a compile-time constant. -/
theorem C5_shuffle_partitions_deterministic (xs ys : List String)
    (h1 h2 : Hook) (c1 c2 : Nat)
    (hxs : xs = ys) (hh : h1 = h2) (hc : c1 = c2) :
    shuffle xs = shuffle ys ∧
    partitions h1 xs c1 = partitions h2 ys c2 ∧
    shuffle xs = shuffleGo SEED xs (xs.length - 1) := by
  subst hxs hh hc
  exact ⟨rfl, rfl, rfl⟩

theorem C5_shuffle_partitions_deterministic_witness :
    (["b", "a"] : List String) = ["b", "a"] ∧
    (shuffle (["b", "a"] : List String) = shuffle ["b", "a"] ∧
     partitions smallHook ["b", "a"] 1 = partitions smallHook ["b", "a"] 1 ∧
     shuffle (["b", "a"] : List String) =
       shuffleGo SEED ["b", "a"] ((["b", "a"] : List String).length - 1)) :=
  ⟨rfl, C5_shuffle_partitions_deterministic ["b", "a"] ["b", "a"]
    smallHook smallHook 1 1 rfl rfl rfl⟩

/-- Splitting the sequencer loop at a prefix that ran without breaking. -/
theorem runHooksLoop_append (p : Hook → Diff → Except String (Bool × Diff))
    (ff : Bool) (pre : List Hook) :
    ∀ (l : List Hook) (s : Bool) (d : Diff) (s1 : Bool) (d1 : Diff) (ex1 : List Hook),
      runHooksLoop p ff pre s d = Except.ok (s1, d1, ex1, false) →
      runHooksLoop p ff (pre ++ l) s d =
        match runHooksLoop p ff l s1 d1 with
        | Except.error e => Except.error e
        | Except.ok (s2, d2, ex2, b) => Except.ok (s2, d2, ex1 ++ ex2, b) := by
  induction pre with
  | nil =>
    intro l s d s1 d1 ex1 h
    rw [runHooksLoop] at h
    obtain ⟨rfl, rfl, rfl, -⟩ : s = s1 ∧ d = d1 ∧ [] = ex1 ∧ True := by
      cases h; exact ⟨rfl, rfl, rfl, trivial⟩
    cases hl : runHooksLoop p ff l s d <;> simp [hl]
  | cons hook pre ih =>
    intro l s d s1 d1 ex1 h
    rw [runHooksLoop] at h
    rw [show hook :: pre ++ l = hook :: (pre ++ l) from rfl, runHooksLoop]
    cases hp : p hook d with
    | error e => rw [hp] at h; cases h
    | ok r =>
      obtain ⟨hs, nd⟩ := r
      rw [hp] at h
      dsimp only at h ⊢
      by_cases hcond : (!(s && hs) && (ff || hook.fail_fast)) = true
      · rw [if_pos hcond] at h
        cases h
      · rw [if_neg hcond] at h ⊢
        cases hrec : runHooksLoop p ff pre (s && hs) nd with
        | error e => rw [hrec] at h; cases h
        | ok r2 =>
          obtain ⟨a, b2, c, bk⟩ := r2
          rw [hrec] at h
          dsimp only at h
          cases h
          rw [ih l (s && hs) nd s1 d1 c hrec]
          cases hl : runHooksLoop p ff l s1 d1 with
          | error e => rfl
          | ok r3 => obtain ⟨x, y, z, w⟩ := r3; simp

/-- Claim C7: if the hooks before `h` ran without breaking, `h` completes
leaving overall accumulated success false, and the global fail-fast flag
or the per-hook fail-fast flag of `h` is set, then no hook after `h` is
executed — whatever the later hooks' own flags are, since the conclusion
holds for every `post` — and the run's overall result is failure. -/
theorem C7_fail_fast_stops_run (p : Hook → Diff → Except String (Bool × Diff))
    (ff : Bool) (pre : List Hook) (h : Hook) (post : List Hook)
    (s1 : Bool) (d0 d1 : Diff) (ex1 : List Hook) (hs : Bool) (nd : Diff)
    (hpre : runHooksLoop p ff pre true d0 = Except.ok (s1, d1, ex1, false))
    (hh : p h d1 = Except.ok (hs, nd))
    (hfail : (s1 && hs) = false)
    (hflag : (ff || h.fail_fast) = true) :
    runHooks p ff (pre ++ h :: post) d0 = Except.ok (ExitStatus.Failure, ex1 ++ [h]) := by
  rw [runHooks,
    runHooksLoop_append p ff pre (h :: post) true d0 s1 d1 ex1 hpre,
    runHooksLoop, hh]
  dsimp only
  rw [hfail, hflag]
  simp

theorem C7_fail_fast_stops_run_witness :
    runHooksLoop alwaysFailRunner false [] true [] =
      Except.ok (true, [], [], false) ∧
    alwaysFailRunner failFastHook [] = Except.ok (false, []) ∧
    (true && false) = false ∧
    (false || failFastHook.fail_fast) = true ∧
    runHooks alwaysFailRunner false ([] ++ failFastHook :: [alwaysRunHook]) [] =
      Except.ok (ExitStatus.Failure, [] ++ [failFastHook]) :=
  ⟨rfl, rfl, rfl, rfl,
   C7_fail_fast_stops_run alwaysFailRunner false [] failFastHook [alwaysRunHook]
     true [] [] [] false [] rfl rfl rfl rfl⟩

/-- Claim C4: an executed hook (not skip-listed, and with a non-empty
filtered list or `always_run`) is reported successful iff its exit status
is zero and the fresh diff snapshot equals the previous one — so a
zero-exit hook that changed the diff is reported failed — and the fresh
snapshot is what `run_hook` hands back; the sequencer loop then feeds
exactly that returned snapshot to the remaining hooks. -/
theorem C4_hook_success_iff_clean (hook : Hook) (env : HookEnv)
    (filenames skips : List String) (diff : Diff) (fns : List String)
    (hskip : (skips.contains hook.id || skips.contains hook.aliasId) = false)
    (hfns : filteredFilenames env hook filenames = Except.ok fns)
    (hexec : fns ≠ [] ∨ hook.always_run = true) :
    runHook hook env filenames skips diff =
      Except.ok
        (decide (hookRunStatus hook env fns = 0 ∧ env.newDiff = diff), env.newDiff) ∧
    ∀ (p : Hook → Diff → Except String (Bool × Diff)) (ff : Bool)
      (rest : List Hook) (s hs : Bool) (nd : Diff),
      p hook diff = Except.ok (hs, nd) →
      (!(s && hs) && (ff || hook.fail_fast)) = false →
      runHooksLoop p ff (hook :: rest) s diff =
        match runHooksLoop p ff rest (s && hs) nd with
        | Except.error e => Except.error e
        | Except.ok (s2, d2, ex, b) => Except.ok (s2, d2, hook :: ex, b) := by
  constructor
  · rw [runHook, hskip, if_neg Bool.false_ne_true, hfns]
    dsimp only
    have hne : (fns.isEmpty && !hook.always_run) = false := by
      rcases hexec with hne | har
      · simp [List.isEmpty_iff, hne]
      · simp [har]
    rw [hne, if_neg Bool.false_ne_true]
    have hrw : (if hook.pass_filenames = true then env.runResult (shuffle fns)
        else env.runResult []).1 = hookRunStatus hook env fns := rfl
    rw [hrw]
    by_cases hz : hookRunStatus hook env fns = 0 <;>
      by_cases hd : env.newDiff = diff <;>
        simp [hz, hd] <;>
        exact fun hh => hd hh.symm
  · intro p ff rest s hs nd hp hcond
    rw [runHooksLoop, hp]
    dsimp only
    rw [hcond]
    simp

theorem C4_hook_success_iff_clean_witness :
    (([] : List String).contains alwaysRunHook.id ||
      ([] : List String).contains alwaysRunHook.aliasId) = false ∧
    filteredFilenames witnessEnv alwaysRunHook ["a"] = Except.ok ["a"] ∧
    ((["a"] : List String) ≠ [] ∨ alwaysRunHook.always_run = true) ∧
    (runHook alwaysRunHook witnessEnv ["a"] [] [] =
      Except.ok
        (decide (hookRunStatus alwaysRunHook witnessEnv ["a"] = 0 ∧
          witnessEnv.newDiff = []), witnessEnv.newDiff) ∧
    ∀ (p : Hook → Diff → Except String (Bool × Diff)) (ff : Bool)
      (rest : List Hook) (s hs : Bool) (nd : Diff),
      p alwaysRunHook [] = Except.ok (hs, nd) →
      (!(s && hs) && (ff || alwaysRunHook.fail_fast)) = false →
      runHooksLoop p ff (alwaysRunHook :: rest) s [] =
        match runHooksLoop p ff rest (s && hs) nd with
        | Except.error e => Except.error e
        | Except.ok (s2, d2, ex, b) => Except.ok (s2, d2, alwaysRunHook :: ex, b)) :=
  ⟨rfl, rfl, Or.inr rfl,
   C4_hook_success_iff_clean alwaysRunHook witnessEnv ["a"] [] [] ["a"]
     rfl rfl (Or.inr rfl)⟩

theorem map_getD_range (xs : List α) (d : α) (f : α → β) :
    (List.range xs.length).map (fun i => f (xs.getD i d)) = xs.map f := by
  induction xs with
  | nil => simp
  | cons x xs ih =>
    rw [List.length_cons, List.range_succ_eq_map, List.map_cons, List.map_map]
    have hcomp : ((fun i => f ((x :: xs).getD i d)) ∘ Nat.succ) =
        fun i => f (xs.getD i d) := by
      funext i
      rfl
    rw [hcomp, ih]
    rfl

/-- Claim C3 is false as stated: with five one-byte filenames and
concurrency 2 the partitioner emits two batches, and the completion
schedule in which the second batch finishes first is admissible; on it
`run_by_batch` returns the batch results in completion order, which
differs from partition order. -/
theorem C3_counterexample :
    ([1, 0] : List Nat).Perm
      (List.range (partitions smallHook ["a", "b", "c", "d", "f"] 2).length) ∧
    runByBatch smallHook ["a", "b", "c", "d", "f"] 2 (fun b => b) [1, 0] ≠
      (partitions smallHook ["a", "b", "c", "d", "f"] 2).map (fun b => b) := by
  decide

/-- Claim C3 (amended): the overall hook exit status — combining the
batch statuses as the spec prescribes — is non-zero iff some batch's exit
status is non-zero, for every admissible completion schedule; but the
list `run_by_batch` returns is ordered by task completion, a permutation
of the partition-order results rather than the partition order itself. -/
theorem C3_batch_results (hook : Hook) (files : List String) (c : Nat)
    (run : List String → Int × List Nat) (schedule : List Nat)
    (hsched : schedule.Perm (List.range (partitions hook files c).length)) :
    (runByBatch hook files c run schedule).Perm
      ((partitions hook files c).map run) ∧
    (combineStatuses ((runByBatch hook files c run schedule).map Prod.fst) ≠ 0 ↔
      ∃ b ∈ partitions hook files c, (run b).1 ≠ 0) := by
  have hperm : (runByBatch hook files c run schedule).Perm
      ((partitions hook files c).map run) := by
    rw [runByBatch]
    have := hsched.map fun i => run ((partitions hook files c).getD i [])
    rwa [map_getD_range (partitions hook files c) [] run] at this
  refine ⟨hperm, ?_⟩
  rw [combineStatuses]
  by_cases hany : ((runByBatch hook files c run schedule).map Prod.fst).any
      (fun s => s ≠ 0) = true
  · rw [if_pos hany]
    simp only [List.any_eq_true, List.mem_map, decide_eq_true_eq] at hany
    obtain ⟨s, ⟨r, hr, rfl⟩, hs⟩ := hany
    have hr' : r ∈ (partitions hook files c).map run := hperm.mem_iff.mp hr
    obtain ⟨b, hb, rfl⟩ := List.mem_map.mp hr'
    exact ⟨fun _ => ⟨b, hb, hs⟩, fun _ => by decide⟩
  · rw [if_neg hany]
    simp only [List.any_eq_true, List.mem_map, decide_eq_true_eq] at hany
    push_neg at hany
    constructor
    · intro hz; exact absurd rfl hz
    · rintro ⟨b, hb, hs⟩
      exfalso
      refine hs (hany (run b).1 ⟨run b, ?_, rfl⟩)
      exact hperm.mem_iff.mpr (List.mem_map.mpr ⟨b, hb, rfl⟩)

theorem C3_batch_results_witness :
    ([1, 0] : List Nat).Perm
      (List.range (partitions smallHook ["a", "b", "c", "d", "f"] 2).length) ∧
    ((runByBatch smallHook ["a", "b", "c", "d", "f"] 2 cexRun [1, 0]).Perm
      ((partitions smallHook ["a", "b", "c", "d", "f"] 2).map cexRun) ∧
    (combineStatuses ((runByBatch smallHook ["a", "b", "c", "d", "f"] 2
        cexRun [1, 0]).map Prod.fst) ≠ 0 ↔
      ∃ b ∈ partitions smallHook ["a", "b", "c", "d", "f"] 2, (cexRun b).1 ≠ 0)) :=
  ⟨by decide,
   C3_batch_results smallHook ["a", "b", "c", "d", "f"] 2 cexRun [1, 0] (by decide)⟩

/-- Claim C2 names the intended behaviour, and the atomic flag in
`WorkTreeKeeper::restore` does make repeated `restore` calls no-ops; but
the field destructors bypass the flag: a single normal-completion trigger
(`RestoreGuard` dropped once, no interrupt) issues
`git apply --reverse` twice — once from `WorkTreeKeeper::restore` and
once more from `WorkingTreeKeeper`'s `Drop` when the taken keeper is
dropped — contradicting "no further git commands issued". -/
theorem C2_restore_reissues_commands :
    (WorkTreeKeeper.clean.restore).2 = [GitCmd.applyReverse "/tmp/patch"] ∧
    runTriggers (some WorkTreeKeeper.clean) [TriggerEvent.guardDrop] =
      [GitCmd.applyReverse "/tmp/patch", GitCmd.applyReverse "/tmp/patch"] ∧
    ∀ k : WorkTreeKeeper, (k.restore).1.restore = ((k.restore).1, []) := by
  refine ⟨by decide, by decide, ?_⟩
  intro k
  by_cases hr : k.restored
  · simp [WorkTreeKeeper.restore, hr]
  · simp [WorkTreeKeeper.restore, hr]

theorem C6_partition_emptiness_witness :
    1 ≤ 1 ∧
    (partitions smallHook [] 1 = [[]] ∧
     ∀ files, files ≠ [] →
       (∀ f ∈ files, commandLength smallHook + 1 + (f.length + 1) ≤ maxCliLength) →
       ∀ b ∈ partitions smallHook files 1, b ≠ []) :=
  ⟨by decide, C6_partition_emptiness smallHook 1 (by decide)⟩

